import Mathlib

/-!
A verification development for the `dynamic_overload` Python package
(`src/dynamic_overload/overload.py`).  The Python code is shallowly embedded:
runtime values carry their runtime class, type hints form a small closed
universe, `inspect.Signature.bind` / `apply_defaults` are modelled as explicit
functions on argument lists, and the two dispatchers become functions into
`Except`.  Exceptions raised by user code are modelled by the `Err` type;
`Err.typeErr` stands for Python's `TypeError` and `Err.noMatchingOverload`
for `NoMatchingOverloadException`.
-/

namespace DynamicOverload

/-- Runtime Python classes that occur in argument values and in type hints.
`custom n` stands for any further user-defined class. -/
inductive Ty where
  | int
  | str
  | float
  | list
  | dict
  | noneType
  | custom (n : Nat)
deriving DecidableEq, Repr

/-- A runtime value: its runtime class together with a payload distinguishing
different values of the same class. -/
structure Val where
  ty : Ty
  payload : Nat
deriving DecidableEq, Repr

/-- A declared type hint of one parameter, as the Python code consumes it:
`empty` is `Parameter.empty` (no annotation), `anyHint` is `typing.Any`,
`base t` a plain class, `paramzd t` a parameterized generic whose
`__origin__` is `t` (e.g. `List[int]` with origin `list`), and `union ts` a
`types.UnionType` (`a | b`) whose `__args__` are the plain classes `ts`. -/
inductive Hint where
  | empty
  | anyHint
  | base (t : Ty)
  | paramzd (origin : Ty)
  | union (ts : List Ty)
deriving DecidableEq, Repr

/-- Model of `isinstance(v, t)`, modelled as a runtime-class equality test. -/
def isinstance (v : Val) (t : Ty) : Bool :=
  decide (v.ty = t)

/-- Model of `_score_type_hint(arg, hint)`: erase a parameterized hint to its
`__origin__`; score `0` for a missing annotation or `Any`; for a union,
`1` when some member matches else `-1`; otherwise `1` on `isinstance`
success and `-1` on failure. -/
def score_type_hint (arg : Val) : Hint → Int
  | .paramzd t => if isinstance arg t then 1 else -1
  | .empty => 0
  | .anyHint => 0
  | .union ts => if ts.any (fun t => isinstance arg t) then 1 else -1
  | .base t => if isinstance arg t then 1 else -1

/-- Parameter kinds distinguished by the Python code: ordinary
(`POSITIONAL_OR_KEYWORD`), keyword-only, `*args` (`VAR_POSITIONAL`) and
`**kwargs` (`VAR_KEYWORD`). -/
inductive PKind where
  | posOrKw
  | kwOnly
  | varPos
  | varKw
deriving DecidableEq, Repr

/-- One `inspect.Parameter`: name, kind, type hint and optional default
value (`none` means no default). -/
structure Param where
  name : String
  kind : PKind
  hint : Hint
  dflt : Option Val
deriving DecidableEq, Repr

/-- One `inspect.Signature`: the ordered parameter list. -/
structure Sig where
  params : List Param
deriving DecidableEq, Repr

/-- A value bound to one parameter inside `BoundArguments.arguments`:
a single value for an ordinary parameter, the collected tuple for `*args`,
or the collected name/value dict for `**kwargs`. -/
inductive Arg where
  | single (v : Val)
  | varTuple (vs : List Val)
  | varDict (vs : List (String × Val))
deriving DecidableEq, Repr

/-- Model of `_score_any_type_hint(arg, param)`: sum the per-value scores over a
`*args` tuple or a `**kwargs` dict, otherwise score the single value.
`Signature.bind` only ever pairs a parameter with the matching `Arg`
shape, so the cross cases are unreachable; they reuse the same sums. -/
def score_any_type_hint (arg : Arg) (p : Param) : Int :=
  match p.kind, arg with
  | .varPos, .varTuple vs => (vs.map (fun v => score_type_hint v p.hint)).sum
  | .varPos, .varDict vs => (vs.map (fun kv => score_type_hint kv.2 p.hint)).sum
  | .varPos, .single v => score_type_hint v p.hint
  | .varKw, .varDict vs => (vs.map (fun kv => score_type_hint kv.2 p.hint)).sum
  | .varKw, .varTuple vs => (vs.map (fun v => score_type_hint v p.hint)).sum
  | .varKw, .single v => score_type_hint v p.hint
  | _, .single v => score_type_hint v p.hint
  | _, .varTuple vs => (vs.map (fun v => score_type_hint v p.hint)).sum
  | _, .varDict vs => (vs.map (fun kv => score_type_hint kv.2 p.hint)).sum

/-- Model of `sig.parameters[name]`, as a lookup over the ordered parameter list. -/
def lookupParam (s : Sig) (n : String) : Option Param :=
  s.params.find? (fun p => p.name == n)

/-- The loop of `_signature_matches`: walk the bound arguments, reject the
whole signature as soon as one per-parameter score is negative, otherwise
accumulate the sum.  Bound arguments produced by `bind` only mention names
of parameters of `sig`, so the `none` lookup branch is unreachable. -/
def sm_go (sig : Sig) : List (String × Arg) → Int → Int
  | [], score => score
  | (n, a) :: rest, score =>
    match lookupParam sig n with
    | none => sm_go sig rest score
    | some p =>
      let ps := score_any_type_hint a p
      if ps < 0 then -1 else sm_go sig rest (score + ps)

/-- Model of `_signature_matches(sig, bound_args)`. -/
def signature_matches (sig : Sig) (bound : List (String × Arg)) : Int :=
  sm_go sig bound 0

/-- Positional phase of `Signature.bind`: match the supplied positional
values against the parameters in order.  A `*args` parameter absorbs all
remaining positional values.  Returns the entries assigned so far together
with the parameters left for the keyword phase, or `none` on the
`TypeError`s `bind` raises (too many positional arguments, or a positional
value for a parameter that is also supplied by keyword). -/
def bindPos : List Param → List Val → List String → Option (List (String × Arg) × List Param)
  | ps, [], _ => some ([], ps)
  | [], _ :: _, _ => none
  | p :: ps, v :: vs, kwNames =>
    match p.kind with
    | .varPos => some ([(p.name, Arg.varTuple (v :: vs))], ps)
    | .varKw => none
    | .kwOnly => none
    | .posOrKw =>
      if kwNames.contains p.name then none
      else
        match bindPos ps vs kwNames with
        | none => none
        | some (entries, rest) => some ((p.name, Arg.single v) :: entries, rest)

/-- True when some parameter in `ps` can claim the keyword name `n`
(an ordinary or keyword-only parameter named `n`). -/
def kwClaimable (ps : List Param) (n : String) : Bool :=
  ps.any (fun p =>
    p.name == n &&
      (match p.kind with
       | .posOrKw => true
       | .kwOnly => true
       | _ => false))

/-- Keyword phase of `Signature.bind`, per remaining parameter: an ordinary
or keyword-only parameter takes its keyword value when supplied, is skipped
when it has a default, and raises (`none`) when a required parameter is
left without a value.  `*args` and `**kwargs` are handled elsewhere. -/
def bindKwParams : List Param → List (String × Val) → Option (List (String × Arg))
  | [], _ => some []
  | p :: ps, kwargs =>
    match p.kind with
    | .varPos => bindKwParams ps kwargs
    | .varKw => bindKwParams ps kwargs
    | _ =>
      match kwargs.find? (fun kv => kv.1 == p.name) with
      | some kv =>
        match bindKwParams ps kwargs with
        | none => none
        | some es => some ((p.name, Arg.single kv.2) :: es)
      | none =>
        if p.dflt.isSome then bindKwParams ps kwargs else none

/-- Keyword phase of `Signature.bind`.  Keyword values that no remaining
parameter claims flow into the `**kwargs` parameter when the signature has
one and raise (`none`) otherwise. -/
def bindKw (rest : List Param) (kwargs : List (String × Val)) : Option (List (String × Arg)) :=
  match bindKwParams rest kwargs with
  | none => none
  | some es =>
    let leftovers := kwargs.filter (fun kv => !(kwClaimable rest kv.1))
    match rest.find? (fun p =>
        match p.kind with
        | .varKw => true
        | _ => false) with
    | some pk => some (es ++ [(pk.name, Arg.varDict leftovers)])
    | none => if leftovers.isEmpty then some es else none

/-- Model of `sig.bind(*args, **kwargs)`: `none` models the `TypeError` raised on a
binding failure. -/
def Sig.bind (sig : Sig) (args : List Val) (kwargs : List (String × Val)) :
    Option (List (String × Arg)) :=
  match bindPos sig.params args (kwargs.map Prod.fst) with
  | none => none
  | some (es, rest) =>
    match bindKw rest kwargs with
    | none => none
    | some es2 => some (es ++ es2)

/-- Model of `bound_args.apply_defaults()`: parameters without a bound value receive
their default, a `*args` parameter the empty tuple and a `**kwargs`
parameter the empty dict. -/
def applyDefaults (sig : Sig) (bound : List (String × Arg)) : List (String × Arg) :=
  bound ++ sig.params.filterMap (fun p =>
    if (bound.map Prod.fst).contains p.name then none
    else
      match p.kind with
      | .varPos => some (p.name, Arg.varTuple [])
      | .varKw => some (p.name, Arg.varDict [])
      | _ => p.dflt.map (fun v => (p.name, Arg.single v)))

/-- The per-candidate body of the `best_match` loops: try to bind the call,
and on success apply defaults and compute `_signature_matches`.  `none`
models the `continue` taken when `sig.bind` raises `TypeError`. -/
def tryScore (sig : Sig) (args : List Val) (kwargs : List (String × Val)) : Option Int :=
  match sig.bind args kwargs with
  | none => none
  | some ba => some (signature_matches sig (applyDefaults sig ba))

/-- The scanning loop shared by `FunctionOverloadDispatcher.best_match` and
`BoundOverloadDispatcher.best_match`: walk the signatures in registration
order carrying `(best_score, best_func)`, where the candidate is identified
by its registration index `i0 + position`; only a strictly greater score
replaces the current best. -/
def bestAux (args : List Val) (kwargs : List (String × Val)) :
    List Sig → Nat → Int × Option Nat → Int × Option Nat
  | [], _, acc => acc
  | sg :: rest, i0, (bs, bf) =>
    match tryScore sg args kwargs with
    | none => bestAux args kwargs rest (i0 + 1) (bs, bf)
    | some s =>
      if bs < s then bestAux args kwargs rest (i0 + 1) (s, some i0)
      else bestAux args kwargs rest (i0 + 1) (bs, bf)

/-- Model of `best_match`, returning the index of the winning candidate in
registration order, or `none` for the raised `NoMatchingOverloadException`
(initial state `best_score = -1`, `best_func = None`). -/
def bestMatchIdx (sigs : List Sig) (args : List Val) (kwargs : List (String × Val)) :
    Option Nat :=
  (bestAux args kwargs sigs 0 ((-1 : Int), none)).2

/-- Exceptions visible to the embedding: the dispatcher's own
`NoMatchingOverloadException`, Python's `TypeError`, and any other
exception a user-supplied body may raise. -/
inductive Err where
  | noMatchingOverload
  | typeErr
  | userErr (code : Nat)
deriving DecidableEq, Repr

/-- One registered candidate: the callable's `__name__`, its `__doc__`, the
signature extracted at registration, and the body as a function from the
call arguments to a result or a raised exception. -/
structure Cand where
  name : String
  doc : Option String
  sig : Sig
  body : List Val → List (String × Val) → Except Err Val

/-- Model of `FunctionOverloadDispatcher.__call__`: run `best_match` over the
registered signatures and invoke the winner on the original arguments;
a failed `best_match` raises `NoMatchingOverloadException`.  The
out-of-range index branch is unreachable. -/
def FunctionOverloadDispatcher.call (cands : List Cand) (args : List Val)
    (kwargs : List (String × Val)) : Except Err Val :=
  match bestMatchIdx (cands.map Cand.sig) args kwargs with
  | none => Except.error Err.noMatchingOverload
  | some i =>
    match cands.get? i with
    | some c => c.body args kwargs
    | none => Except.error Err.noMatchingOverload

/-- Model of `BoundOverloadDispatcher`: the bound instance, the candidates of the
owner class, and `getattr(super(owner_cls, instance), name, None)` as an
optional callable. -/
structure BoundDispatcher where
  instVal : Val
  cands : List Cand
  superCall : Option (List Val → List (String × Val) → Except Err Val)

/-- Model of `BoundOverloadDispatcher.__call__`: locally `best_match` binds
`(instance, *args)`; on success the winner is invoked outside any handler.
On local failure the ancestor callable, when present, is invoked with the
original arguments under `except TypeError: pass`, so any `TypeError` it
raises is replaced by `NoMatchingOverloadException`; without an ancestor
the dispatcher raises `NoMatchingOverloadException` directly. -/
def BoundDispatcher.call (d : BoundDispatcher) (args : List Val)
    (kwargs : List (String × Val)) : Except Err Val :=
  match bestMatchIdx (d.cands.map Cand.sig) (d.instVal :: args) kwargs with
  | some i =>
    match d.cands.get? i with
    | some c => c.body (d.instVal :: args) kwargs
    | none => Except.error Err.noMatchingOverload
  | none =>
    match d.superCall with
    | some sc =>
      match sc args kwargs with
      | Except.error Err.typeErr => Except.error Err.noMatchingOverload
      | r => r
    | none => Except.error Err.noMatchingOverload

/-- The number of parameters of `s` carrying a default value. -/
def numDefaults (s : Sig) : Nat :=
  (s.params.filter (fun p => p.dflt.isSome)).length

/-- The arity step of `_overlap_signature`: the guard whose success makes
the detector return `False` (no overlap) before comparing any hints.  It
holds when all four equalities between the total and the non-default
parameter counts of the two signatures fail. -/
def arity_no_overlap (s1 s2 : Sig) : Bool :=
  decide (s1.params.length ≠ s2.params.length) &&
  decide (s1.params.length ≠ s2.params.length - numDefaults s2) &&
  decide (s1.params.length - numDefaults s1 ≠ s2.params.length) &&
  decide (s1.params.length - numDefaults s1 ≠ s2.params.length - numDefaults s2)

/-- Erase a parameterized hint to its `__origin__` (`List[int] → list`),
as `param.replace(annotation=param.annotation.__origin__)` does. -/
def eraseOrigin : Hint → Hint
  | .paramzd t => .base t
  | h => h

/-- True for a missing annotation or `Any`. -/
def wildcardHint : Hint → Bool
  | .empty => true
  | .anyHint => true
  | _ => false

/-- True for a `types.UnionType` hint. -/
def isUnion : Hint → Bool
  | .union _ => true
  | _ => false

/-- The member classes of a hint once one side is a union: a union explodes
to its `__args__`, any other hint becomes the singleton of itself. -/
def explodeUnion : Hint → List Ty
  | .union ts => ts
  | .base t => [t]
  | .paramzd t => [t]
  | _ => []

/-- The per-shared-name check of `_overlap_signature`, applied to the two
already-erased hints: wildcards always overlap; with a union on either
side the member lists are compared (after the sort-by-length swap) for any
shared member; otherwise concrete hints overlap exactly when equal. -/
def params_overlap (h1 h2 : Hint) : Bool :=
  if wildcardHint h1 || wildcardHint h2 then true
  else if isUnion h1 || isUnion h2 then
    if (explodeUnion h2).length < (explodeUnion h1).length then
      (explodeUnion h2).any (fun t => decide (t ∈ explodeUnion h1))
    else
      (explodeUnion h1).any (fun t => decide (t ∈ explodeUnion h2))
  else decide (h1 = h2)

/-- The per-parameter loop of `_overlap_signature`: walk `sig1`'s
parameters, skip names absent from `sig2`, and compare the erased hints of
shared names; any failed comparison makes the whole loop return `False`. -/
def overlapLoop (s1 s2 : Sig) : Bool :=
  s1.params.all (fun p =>
    match lookupParam s2 p.name with
    | none => true
    | some q => params_overlap (eraseOrigin p.hint) (eraseOrigin q.hint))

/-- Model of `_overlap_signature(sig1, sig2)`: the arity guard, then the
per-parameter loop. -/
def _overlap_signature (s1 s2 : Sig) : Bool :=
  if arity_no_overlap s1 s2 then false else overlapLoop s1 s2

/-- True when the signature has a `*args` or `**kwargs` parameter. -/
def hasVariadic (s : Sig) : Bool :=
  s.params.any (fun p =>
    match p.kind with
    | .varPos => true
    | .varKw => true
    | _ => false)

/-- Following the spec's words, for comparison with the code: the minimum
satisfiable parameter count of a signature is its non-default parameter
count. -/
def specMinCount (s : Sig) : Nat :=
  s.params.length - numDefaults s

/-- Following the spec's words, for comparison with the code: the maximum
satisfiable parameter count is the total parameter count, or unbounded
(`none`) when a variadic parameter exists. -/
def specMaxCount (s : Sig) : Option Nat :=
  if hasVariadic s then none else some s.params.length

/-- Following the spec's words, for comparison with the code: the two
satisfiable-parameter-count ranges `[min, max]` intersect. -/
def spec_rangesIntersect (s1 s2 : Sig) : Bool :=
  match specMaxCount s1, specMaxCount s2 with
  | some m1, some m2 => decide (max (specMinCount s1) (specMinCount s2) ≤ min m1 m2)
  | some m1, none => decide (max (specMinCount s1) (specMinCount s2) ≤ m1)
  | none, some m2 => decide (max (specMinCount s1) (specMinCount s2) ≤ m2)
  | none, none => true

/-- The registry `OverloadItem`: the shared name plus the parallel
`overloads` and `signatures` lists, appended in lockstep. -/
structure OverloadItem where
  name : String
  overloads : List Cand
  signatures : List Sig

/-- Model of `OverloadItem.__init__`: a fresh registry holding one candidate. -/
def OverloadItem.single (c : Cand) : OverloadItem :=
  ⟨c.name, [c], [c.sig]⟩

/-- Model of `OverloadItem.append`: compare the new signature against every
registered one, collecting a `ConflictingOverloadWarning` (modelled as the
offending signature pair) per overlap, then append the candidate and its
signature unconditionally. -/
def OverloadItem.append (item : OverloadItem) (c : Cand) :
    OverloadItem × List (Sig × Sig) :=
  (⟨item.name, item.overloads ++ [c], item.signatures ++ [c.sig]⟩,
    item.signatures.filterMap (fun ex =>
      if _overlap_signature c.sig ex then some (c.sig, ex) else none))

/-- A sequence of registrations into one registry, oldest first. -/
def registerAll (item : OverloadItem) (cs : List Cand) : OverloadItem :=
  cs.foldl (fun it c => (OverloadItem.append it c).1) item

/-- Python's `x or ""` applied to an optional docstring.  A missing
docstring (`None`) yields `""`; a present docstring `s` yields `s` (for
the falsy `s = ""` the `or` also yields `""`, which coincides with `s`). -/
def pyOrEmpty : Option String → String
  | none => ""
  | some s => s

/-- Model of `OverloadItem.help`: run the free-function `best_match` over the
registered signatures and return the winner's `__doc__ or ""`; a failed
`best_match` raises `NoMatchingOverloadException`. -/
def OverloadItem.help (item : OverloadItem) (args : List Val)
    (kwargs : List (String × Val)) : Except Err String :=
  match bestMatchIdx item.signatures args kwargs with
  | none => Except.error Err.noMatchingOverload
  | some i =>
    match item.overloads.get? i with
    | some c => Except.ok (pyOrEmpty c.doc)
    | none => Except.error Err.noMatchingOverload

/-- A value stored in the class-body `OverloadDict`: an `OverloadItem`
registry or a plain non-callable value. -/
inductive StoredVal where
  | registry (it : OverloadItem)
  | plain (v : Val)

/-- A value being assigned in a class body: a callable (a function being
declared) or a non-callable. -/
inductive AssignedVal where
  | func (c : Cand)
  | nonCallable (v : Val)

/-- Model of the raw dict lookup underlying `self.get(key, None)`: the
entry stored under `k`, when one is present.  The `None`-default
conflation performed by `get(key, None)` lives in `odCurrentValue`. -/
def odGet (d : List (String × StoredVal)) (k : String) : Option StoredVal :=
  (d.find? (fun kv => kv.1 == k)).map (fun kv => kv.2)

/-- Model of Python's `None` test on a runtime value: every value of class
`NoneType` is the `None` singleton. -/
def isNoneVal (v : Val) : Bool :=
  decide (v.ty = Ty.noneType)

/-- Model of `current_value = self.get(key, None)` followed by the
`current_value is None` test: the `None` default makes an absent key
indistinguishable from a stored `None` value, so both read as `none`
here. -/
def odCurrentValue (d : List (String × StoredVal)) (k : String) : Option StoredVal :=
  match odGet d k with
  | none => none
  | some (StoredVal.plain x) =>
    if isNoneVal x then none else some (StoredVal.plain x)
  | some (StoredVal.registry it) => some (StoredVal.registry it)

/-- Model of `super().__setitem__`: plain storage, replacing any existing entry. -/
def odSetRaw (d : List (String × StoredVal)) (k : String) (v : StoredVal) :
    List (String × StoredVal) :=
  if (d.map Prod.fst).contains k then
    d.map (fun kv => if kv.1 == k then (kv.1, v) else kv)
  else d ++ [(k, v)]

/-- Model of `OverloadDict.__setitem__`: a non-callable is stored plainly;
a callable whose current value reads as `None` (absent key, or a stored
`None` value) creates a fresh registry; further callables are appended to
an existing registry, returning its conflict warnings; a callable assigned
over any other stored value raises `TypeError`. -/
def OverloadDict.setItem (d : List (String × StoredVal)) (k : String)
    (v : AssignedVal) :
    Except Err (List (String × StoredVal) × List (Sig × Sig)) :=
  match v with
  | .nonCallable x => Except.ok (odSetRaw d k (StoredVal.plain x), [])
  | .func c =>
    match odCurrentValue d k with
    | none => Except.ok (odSetRaw d k (StoredVal.registry (OverloadItem.single c)), [])
    | some (StoredVal.registry it) =>
      Except.ok (odSetRaw d k (StoredVal.registry (OverloadItem.append it c).1),
        (OverloadItem.append it c).2)
    | some (StoredVal.plain _) => Except.error Err.typeErr

/-- Sample runtime values used in the concrete checks below. -/
def vInt : Val := ⟨Ty.int, 1⟩

/-- A second, distinct integer value. -/
def vInt2 : Val := ⟨Ty.int, 2⟩

/-- A sample string value. -/
def vStr : Val := ⟨Ty.str, 1⟩

/-- A sample float value. -/
def vFloat : Val := ⟨Ty.float, 1⟩

/-- The parameter `x: int`. -/
def paramXInt : Param := ⟨"x", PKind.posOrKw, Hint.base Ty.int, none⟩

/-- The unannotated parameter `x`. -/
def paramXAny : Param := ⟨"x", PKind.posOrKw, Hint.empty, none⟩

/-- The parameter `*args: int`. -/
def paramVarArgs : Param := ⟨"args", PKind.varPos, Hint.base Ty.int, none⟩

/-- The signature `(x: int)`. -/
def sigXInt : Sig := ⟨[paramXInt]⟩

/-- The signature `(x)`. -/
def sigXAny : Sig := ⟨[paramXAny]⟩

/-- The signature `(*args: int)`. -/
def sigVarArgs : Sig := ⟨[paramVarArgs]⟩

/-- A candidate `f(x: int)` with a docstring, returning `vInt`. -/
def candXInt : Cand := ⟨"f", some "int overload", sigXInt, fun _ _ => Except.ok vInt⟩

/-- A candidate `f(x)` without a docstring, returning `vStr`. -/
def candXAny : Cand := ⟨"f", none, sigXAny, fun _ _ => Except.ok vStr⟩

/-- A candidate `f(x: int)` whose body raises a user exception. -/
def candRaises : Cand := ⟨"f", none, sigXInt, fun _ _ => Except.error (Err.userErr 3)⟩

/-- The implicit `self` parameter of a method. -/
def selfParam : Param := ⟨"self", PKind.posOrKw, Hint.empty, none⟩

/-- The method signature `(self, x: int)`. -/
def sigSelfInt : Sig := ⟨[selfParam, paramXInt]⟩

/-- A method candidate `m(self, x: int)`. -/
def candMethod : Cand := ⟨"m", some "method", sigSelfInt, fun _ _ => Except.ok vInt⟩

/-- A sample bound instance. -/
def instVal0 : Val := ⟨Ty.custom 0, 0⟩

/-- An ancestor implementation that returns normally. -/
def superOk : List Val → List (String × Val) → Except Err Val :=
  fun _ _ => Except.ok vFloat

/-- An ancestor implementation whose body raises `TypeError`. -/
def superTypeError : List Val → List (String × Val) → Except Err Val :=
  fun _ _ => Except.error Err.typeErr

/-- A bound dispatcher with one local method and a well-behaved ancestor. -/
def dispFallback : BoundDispatcher := ⟨instVal0, [candMethod], some superOk⟩

/-- A bound dispatcher with no local candidates whose ancestor's body
raises `TypeError`. -/
def dispAncestorRaises : BoundDispatcher := ⟨instVal0, [], some superTypeError⟩

/-- A registry holding the single undocumented candidate `candXAny`. -/
def itemNoDoc : OverloadItem := OverloadItem.single candXAny

/-- A class-body dict in which `f` already holds a registry. -/
def regDict : List (String × StoredVal) :=
  [("f", StoredVal.registry (OverloadItem.single candXInt))]

/-- A signature with three parameters, two of them defaulted: satisfiable
parameter counts range over `[1, 3]`. -/
def sigDefaults3 : Sig :=
  ⟨[⟨"a", PKind.posOrKw, Hint.empty, none⟩,
    ⟨"b", PKind.posOrKw, Hint.empty, some vInt⟩,
    ⟨"c", PKind.posOrKw, Hint.empty, some vInt⟩]⟩

/-- A signature with two required parameters: satisfiable parameter counts
range over `[2, 2]`. -/
def sigPlain2 : Sig :=
  ⟨[⟨"a", PKind.posOrKw, Hint.empty, none⟩,
    ⟨"b", PKind.posOrKw, Hint.empty, none⟩]⟩

/-- Invariant of the `best_match` scan: the final best score dominates the
initial one and every score seen along the list; and either nothing beat
the initial state, or the winner is the earliest position achieving the
final best score, every earlier position scoring strictly less. -/
theorem bestAux_spec (args : List Val) (kwargs : List (String × Val))
    (l : List Sig) (i0 : Nat) (bs : Int) (bf : Option Nat) :
    bs ≤ (bestAux args kwargs l i0 (bs, bf)).1 ∧
    (∀ k sg, l.get? k = some sg → ∀ s, tryScore sg args kwargs = some s →
      s ≤ (bestAux args kwargs l i0 (bs, bf)).1) ∧
    (((bestAux args kwargs l i0 (bs, bf)).1 = bs ∧
        (bestAux args kwargs l i0 (bs, bf)).2 = bf) ∨
      ∃ j sg, l.get? j = some sg ∧
        (bestAux args kwargs l i0 (bs, bf)).2 = some (i0 + j) ∧
        tryScore sg args kwargs = some (bestAux args kwargs l i0 (bs, bf)).1 ∧
        bs < (bestAux args kwargs l i0 (bs, bf)).1 ∧
        ∀ k sg2, k < j → l.get? k = some sg2 → ∀ s,
          tryScore sg2 args kwargs = some s →
          s < (bestAux args kwargs l i0 (bs, bf)).1) := by
  induction l generalizing i0 bs bf with
  | nil =>
    refine ⟨le_refl _, ?_, Or.inl ⟨rfl, rfl⟩⟩
    intro k sg hk
    simp [List.get?] at hk
  | cons sg0 rest ih =>
    cases htry : tryScore sg0 args kwargs with
    | none =>
      have hred : bestAux args kwargs (sg0 :: rest) i0 (bs, bf) =
          bestAux args kwargs rest (i0 + 1) (bs, bf) := by
        simp [bestAux, htry]
      rw [hred]
      obtain ⟨ih1, ih2, ih3⟩ := ih (i0 + 1) bs bf
      refine ⟨ih1, ?_, ?_⟩
      · intro k sg hk s hs
        cases k with
        | zero =>
          rw [List.get?_cons_zero] at hk
          injection hk with hk
          rw [← hk, htry] at hs
          cases hs
        | succ k => exact ih2 k sg (by rw [List.get?_cons_succ] at hk; exact hk) s hs
      · cases ih3 with
        | inl h => exact Or.inl h
        | inr h =>
          obtain ⟨j, sg, hget, hidx, ht, hbs, hall⟩ := h
          refine Or.inr ⟨j + 1, sg, by rw [List.get?_cons_succ]; exact hget, ?_, ht, hbs, ?_⟩
          · rw [hidx]
            congr 1
            omega
          · intro k sg2 hk hget2 s hs2
            cases k with
            | zero =>
              rw [List.get?_cons_zero] at hget2
              injection hget2 with hget2
              rw [← hget2, htry] at hs2
              cases hs2
            | succ k =>
              exact hall k sg2 (by omega) (by rw [List.get?_cons_succ] at hget2; exact hget2) s hs2
    | some s =>
      by_cases hlt : bs < s
      · have hred : bestAux args kwargs (sg0 :: rest) i0 (bs, bf) =
            bestAux args kwargs rest (i0 + 1) (s, some i0) := by
          simp [bestAux, htry, hlt]
        rw [hred]
        obtain ⟨ih1, ih2, ih3⟩ := ih (i0 + 1) s (some i0)
        refine ⟨le_trans (le_of_lt hlt) ih1, ?_, ?_⟩
        · intro k sg hk s2 hs2
          cases k with
          | zero =>
            rw [List.get?_cons_zero] at hk
            injection hk with hk
            rw [← hk, htry] at hs2
            injection hs2 with hs2
            rw [← hs2]
            exact ih1
          | succ k => exact ih2 k sg (by rw [List.get?_cons_succ] at hk; exact hk) s2 hs2
        · cases ih3 with
          | inl h =>
            refine Or.inr ⟨0, sg0, List.get?_cons_zero, ?_, ?_, ?_, ?_⟩
            · rw [h.2, Nat.add_zero]
            · rw [h.1]
              exact htry
            · rw [h.1]
              exact hlt
            · intro k sg2 hk
              exact absurd hk (Nat.not_lt_zero k)
          | inr h =>
            obtain ⟨j, sg, hget, hidx, ht, hbs, hall⟩ := h
            refine Or.inr ⟨j + 1, sg, by rw [List.get?_cons_succ]; exact hget, ?_, ht,
              lt_trans hlt hbs, ?_⟩
            · rw [hidx]
              congr 1
              omega
            · intro k sg2 hk hget2 s2 hs2
              cases k with
              | zero =>
                rw [List.get?_cons_zero] at hget2
                injection hget2 with hget2
                rw [← hget2, htry] at hs2
                injection hs2 with hs2
                rw [← hs2]
                exact hbs
              | succ k =>
                exact hall k sg2 (by omega) (by rw [List.get?_cons_succ] at hget2; exact hget2) s2 hs2
      · have hred : bestAux args kwargs (sg0 :: rest) i0 (bs, bf) =
            bestAux args kwargs rest (i0 + 1) (bs, bf) := by
          simp [bestAux, htry, hlt]
        rw [hred]
        obtain ⟨ih1, ih2, ih3⟩ := ih (i0 + 1) bs bf
        have hsle : s ≤ bs := not_lt.mp hlt
        refine ⟨ih1, ?_, ?_⟩
        · intro k sg hk s2 hs2
          cases k with
          | zero =>
            rw [List.get?_cons_zero] at hk
            injection hk with hk
            rw [← hk, htry] at hs2
            injection hs2 with hs2
            rw [← hs2]
            exact le_trans hsle ih1
          | succ k => exact ih2 k sg (by rw [List.get?_cons_succ] at hk; exact hk) s2 hs2
        · cases ih3 with
          | inl h => exact Or.inl h
          | inr h =>
            obtain ⟨j, sg, hget, hidx, ht, hbs, hall⟩ := h
            refine Or.inr ⟨j + 1, sg, by rw [List.get?_cons_succ]; exact hget, ?_, ht, hbs, ?_⟩
            · rw [hidx]
              congr 1
              omega
            · intro k sg2 hk hget2 s2 hs2
              cases k with
              | zero =>
                rw [List.get?_cons_zero] at hget2
                injection hget2 with hget2
                rw [← hget2, htry] at hs2
                injection hs2 with hs2
                rw [← hs2]
                exact lt_of_le_of_lt hsle hbs
              | succ k =>
                exact hall k sg2 (by omega) (by rw [List.get?_cons_succ] at hget2; exact hget2) s2 hs2

/-- C1: whenever some candidate binds the call with a non-negative score,
both dispatchers select the candidate with the strictly highest score —
earliest registered on ties — and invoke it on the original arguments. -/
theorem dispatch_selects_highest_earliest (cands : List Cand) (args : List Val)
    (kwargs : List (String × Val)) (i : Nat) (ci : Cand) (s : Int)
    (hget : cands.get? i = some ci)
    (hscore : tryScore ci.sig args kwargs = some s)
    (hnn : 0 ≤ s) :
    ∃ j cj m, cands.get? j = some cj ∧
      bestMatchIdx (cands.map Cand.sig) args kwargs = some j ∧
      tryScore cj.sig args kwargs = some m ∧ 0 ≤ m ∧ s ≤ m ∧
      (∀ k ck sk, cands.get? k = some ck →
        tryScore ck.sig args kwargs = some sk → sk ≤ m) ∧
      (∀ k ck, cands.get? k = some ck →
        tryScore ck.sig args kwargs = some m → j ≤ k) ∧
      FunctionOverloadDispatcher.call cands args kwargs = cj.body args kwargs ∧
      (∀ inst targs sup, args = inst :: targs →
        BoundDispatcher.call ⟨inst, cands, sup⟩ targs kwargs = cj.body args kwargs) := by
  obtain ⟨h1, h2, h3⟩ := bestAux_spec args kwargs (cands.map Cand.sig) 0 (-1) none
  have hgeti : (cands.map Cand.sig).get? i = some ci.sig := by
    rw [List.get?_map, hget]
    rfl
  have hsle : s ≤ (bestAux args kwargs (cands.map Cand.sig) 0 (-1, none)).1 :=
    h2 i ci.sig hgeti s hscore
  cases h3 with
  | inl h0 =>
    rw [h0.1] at hsle
    omega
  | inr h0 =>
    obtain ⟨j, sg, hgetj, hidx, ht, hbs, hall⟩ := h0
    rw [List.get?_map] at hgetj
    obtain ⟨cj, hcj, hcjsig⟩ := Option.map_eq_some'.mp hgetj
    have hbest : bestMatchIdx (cands.map Cand.sig) args kwargs = some j := by
      unfold bestMatchIdx
      rw [hidx, Nat.zero_add]
    refine ⟨j, cj, (bestAux args kwargs (cands.map Cand.sig) 0 (-1, none)).1,
      hcj, hbest, by rw [hcjsig]; exact ht, by omega, hsle, ?_, ?_, ?_, ?_⟩
    · intro k ck sk hgk hsk
      refine h2 k ck.sig ?_ sk hsk
      rw [List.get?_map, hgk]
      rfl
    · intro k ck hgk hsk
      by_contra hjk
      have hk : k < j := by omega
      have := hall k ck.sig hk (by rw [List.get?_map, hgk]; rfl) _ hsk
      omega
    · have hcj2 : cands[j]? = some cj := by
        rw [← List.get?_eq_getElem?]
        exact hcj
      simp [FunctionOverloadDispatcher.call, hbest, hcj, hcj2]
    · intro inst targs sup heq
      subst heq
      have hcj2 : cands[j]? = some cj := by
        rw [← List.get?_eq_getElem?]
        exact hcj
      simp [BoundDispatcher.call, hbest, hcj, hcj2]

/-- Concrete check: with candidates `f(x: int)` and `f(x)` registered in
that order, the call `f(1)` binds the first with score `1`, `best_match`
selects index `0`, and dispatch invokes that candidate's body. -/
theorem dispatch_selects_highest_earliest_witness :
    tryScore candXInt.sig [vInt] [] = some 1 ∧
    bestMatchIdx ([candXInt, candXAny].map Cand.sig) [vInt] [] = some 0 ∧
    FunctionOverloadDispatcher.call [candXInt, candXAny] [vInt] [] = Except.ok vInt := by
  obtain ⟨j, cj, m, hget, hbest, _, _, _, _, _, hcall, _⟩ :=
    dispatch_selects_highest_earliest [candXInt, candXAny] [vInt] [] 0 candXInt 1
      rfl (by decide) (by decide)
  have hb0 : bestMatchIdx ([candXInt, candXAny].map Cand.sig) [vInt] [] = some 0 := by decide
  refine ⟨by decide, hb0, ?_⟩
  rw [hbest] at hb0
  injection hb0 with hj
  subst hj
  rw [show ([candXInt, candXAny].get? 0) = some candXInt from rfl] at hget
  injection hget with hget
  rw [hcall, ← hget]
  rfl

/-- Helper for C2: when every candidate either fails to bind or scores
`REJECT`, the scan ends with `best_func = None`. -/
theorem bestMatchIdx_none_of_all_reject (sigs : List Sig) (args : List Val)
    (kwargs : List (String × Val))
    (h : ∀ k sg, sigs.get? k = some sg →
      tryScore sg args kwargs = none ∨ tryScore sg args kwargs = some (-1)) :
    bestMatchIdx sigs args kwargs = none := by
  obtain ⟨h1, h2, h3⟩ := bestAux_spec args kwargs sigs 0 (-1) none
  cases h3 with
  | inl h0 => exact h0.2
  | inr h0 =>
    obtain ⟨j, sg, hget, hidx, ht, hbs, hall⟩ := h0
    cases h j sg hget with
    | inl hn =>
      rw [hn] at ht
      cases ht
    | inr hn =>
      rw [hn] at ht
      injection ht with ht
      omega

/-- C2: a call that binds to no candidate, or binds but scores `REJECT` on
every one, makes the free-function dispatcher raise
`NoMatchingOverloadException` without invoking any candidate body (the
outcome only depends on the signatures, not on any body). -/
theorem free_dispatch_no_match_raises (cands : List Cand) (args : List Val)
    (kwargs : List (String × Val))
    (h : ∀ k ck, cands.get? k = some ck →
      tryScore ck.sig args kwargs = none ∨ tryScore ck.sig args kwargs = some (-1)) :
    bestMatchIdx (cands.map Cand.sig) args kwargs = none ∧
    (∀ cands2 : List Cand, cands2.map Cand.sig = cands.map Cand.sig →
      FunctionOverloadDispatcher.call cands2 args kwargs =
        Except.error Err.noMatchingOverload) := by
  have hnone : bestMatchIdx (cands.map Cand.sig) args kwargs = none := by
    refine bestMatchIdx_none_of_all_reject (cands.map Cand.sig) args kwargs ?_
    intro k sg hk
    rw [List.get?_map] at hk
    obtain ⟨ck, hck, hsig⟩ := Option.map_eq_some'.mp hk
    rw [← hsig]
    exact h k ck hck
  refine ⟨hnone, ?_⟩
  intro cands2 hsig
  simp [FunctionOverloadDispatcher.call, hsig, hnone]

/-- Concrete check: with the single candidate `f(x: int)`, the call
`f("a")` binds but scores `REJECT`, and dispatch raises
`NoMatchingOverloadException`. -/
theorem free_dispatch_no_match_raises_witness :
    tryScore candXInt.sig [vStr] [] = some (-1) ∧
    bestMatchIdx ([candXInt].map Cand.sig) [vStr] [] = none := by
  have h := free_dispatch_no_match_raises [candXInt] [vStr] [] (by
    intro k ck hk
    cases k with
    | zero =>
      injection hk with hk
      rw [← hk]
      right
      decide
    | succ n => simp [List.get?] at hk)
  exact ⟨by decide, h.1⟩

/-- Helper: as soon as one bound entry's per-parameter aggregate is
negative, the `_signature_matches` loop short-circuits to `-1`. -/
theorem sm_go_neg (sig : Sig) (bound : List (String × Arg)) :
    ∀ acc : Int,
      (∃ na ∈ bound, ∃ p, lookupParam sig na.1 = some p ∧
        score_any_type_hint na.2 p < 0) →
      sm_go sig bound acc = -1 := by
  induction bound with
  | nil =>
    intro acc h
    obtain ⟨na, hna, _⟩ := h
    cases hna
  | cons hd rest ih =>
    intro acc h
    obtain ⟨n, a⟩ := hd
    cases hl : lookupParam sig n with
    | none =>
      have hrest : ∃ na ∈ rest, ∃ p, lookupParam sig na.1 = some p ∧
          score_any_type_hint na.2 p < 0 := by
        obtain ⟨na, hna, p, hp, hneg⟩ := h
        rcases List.mem_cons.mp hna with heq | hmem
        · rw [heq] at hp
          rw [hl] at hp
          cases hp
        · exact ⟨na, hmem, p, hp, hneg⟩
      simp only [sm_go, hl]
      exact ih acc hrest
    | some p =>
      by_cases hneg : score_any_type_hint a p < 0
      · simp [sm_go, hl, hneg]
      · have hrest : ∃ na ∈ rest, ∃ q, lookupParam sig na.1 = some q ∧
            score_any_type_hint na.2 q < 0 := by
          obtain ⟨na, hna, q, hq, hqneg⟩ := h
          rcases List.mem_cons.mp hna with heq | hmem
          · rw [heq] at hq hqneg
            rw [hl] at hq
            injection hq with hq
            rw [← hq] at hqneg
            exact absurd hqneg hneg
          · exact ⟨na, hmem, q, hq, hqneg⟩
        simp only [sm_go, hl, if_neg hneg]
        exact ih _ hrest

/-- Helper: when every bound entry's per-parameter aggregate is
non-negative, the `_signature_matches` loop keeps its accumulator
non-negative. -/
theorem sm_go_nonneg (sig : Sig) (bound : List (String × Arg)) :
    ∀ acc : Int, 0 ≤ acc →
      (∀ na ∈ bound, ∀ p, lookupParam sig na.1 = some p →
        0 ≤ score_any_type_hint na.2 p) →
      0 ≤ sm_go sig bound acc := by
  induction bound with
  | nil =>
    intro acc hacc _
    exact hacc
  | cons hd rest ih =>
    intro acc hacc h
    obtain ⟨n, a⟩ := hd
    cases hl : lookupParam sig n with
    | none =>
      simp only [sm_go, hl]
      exact ih acc hacc (fun na hna => h na (List.mem_cons_of_mem _ hna))
    | some p =>
      have hp : 0 ≤ score_any_type_hint a p := h (n, a) (List.mem_cons_self _ _) p hl
      have hneg : ¬ score_any_type_hint a p < 0 := not_lt.mpr hp
      simp only [sm_go, hl, if_neg hneg]
      exact ih _ (by omega) (fun na hna => h na (List.mem_cons_of_mem _ hna))

/-- C3 (amended): a variadic-positional parameter's score is the plain sum
of the per-value scores — so a `REJECT` on one supplied value can be
offset by `MATCH`es on others — and the whole signature scores `REJECT`
(-1) exactly when some parameter's summed aggregate is negative. -/
theorem variadic_sum_scoring (sig : Sig) (bound : List (String × Arg))
    (p : Param) (vs : List Val) :
    (p.kind = PKind.varPos →
      score_any_type_hint (Arg.varTuple vs) p =
        (vs.map (fun v => score_type_hint v p.hint)).sum) ∧
    (signature_matches sig bound = -1 ↔
      ∃ na ∈ bound, ∃ q, lookupParam sig na.1 = some q ∧
        score_any_type_hint na.2 q < 0) := by
  constructor
  · intro h
    simp [score_any_type_hint, h]
  · constructor
    · intro h
      by_contra hno
      push_neg at hno
      have hpos : 0 ≤ signature_matches sig bound := by
        refine sm_go_nonneg sig bound 0 (le_refl 0) ?_
        intro na hna q hq
        exact hno na hna q hq
      rw [h] at hpos
      omega
    · exact sm_go_neg sig bound 0

/-- Counterexample to C3 as stated: for `f(*args: int)` called with
`(1, 2, "a")`, the value `"a"` scores `REJECT` against `int`, yet the
signature's total is `1 + 1 - 1 = 1`, the candidate is not excluded, and
`best_match` selects it. -/
theorem variadic_reject_offset_counterexample :
    score_type_hint vStr (Hint.base Ty.int) = -1 ∧
    tryScore sigVarArgs [vInt, vInt2, vStr] [] = some 1 ∧
    bestMatchIdx [sigVarArgs] [vInt, vInt2, vStr] [] = some 0 := by
  decide

/-- Concrete check of the amended C3: the `*args: int` aggregate is the
plain sum, and a bound tuple whose sum is negative rejects the whole
signature. -/
theorem variadic_sum_scoring_witness :
    score_any_type_hint (Arg.varTuple [vInt, vInt2, vStr]) paramVarArgs =
      ([vInt, vInt2, vStr].map (fun v => score_type_hint v paramVarArgs.hint)).sum ∧
    signature_matches sigVarArgs [("args", Arg.varTuple [vStr, vStr])] = -1 := by
  constructor
  · exact (variadic_sum_scoring sigVarArgs [] paramVarArgs [vInt, vInt2, vStr]).1 rfl
  · exact (variadic_sum_scoring sigVarArgs [("args", Arg.varTuple [vStr, vStr])]
      paramVarArgs []).2.mpr
      ⟨("args", Arg.varTuple [vStr, vStr]), List.mem_cons_self _ _, paramVarArgs,
        by decide, by decide⟩

/-- Helper: the arity guard holds exactly when all four count equalities
between the two signatures fail. -/
theorem arity_no_overlap_iff (s1 s2 : Sig) :
    arity_no_overlap s1 s2 = true ↔
      (s1.params.length ≠ s2.params.length ∧
       s1.params.length ≠ s2.params.length - numDefaults s2 ∧
       s1.params.length - numDefaults s1 ≠ s2.params.length ∧
       s1.params.length - numDefaults s1 ≠ s2.params.length - numDefaults s2) := by
  unfold arity_no_overlap
  simp [Bool.and_eq_true, decide_eq_true_eq, and_assoc]

/-- C4 (amended): the arity step declares no overlap exactly when the four
equalities between total and non-default parameter counts all fail; when
it does not disqualify a pair, the two satisfiable ranges do intersect —
but intersecting ranges can still be disqualified (and variadic
parameters receive no special treatment). -/
theorem arity_gate_characterization (s1 s2 : Sig) :
    (arity_no_overlap s1 s2 = true ↔
      (s1.params.length ≠ s2.params.length ∧
       s1.params.length ≠ s2.params.length - numDefaults s2 ∧
       s1.params.length - numDefaults s1 ≠ s2.params.length ∧
       s1.params.length - numDefaults s1 ≠ s2.params.length - numDefaults s2)) ∧
    (arity_no_overlap s1 s2 = false → spec_rangesIntersect s1 s2 = true) := by
  refine ⟨arity_no_overlap_iff s1 s2, ?_⟩
  intro h
  have hc : ¬ (s1.params.length ≠ s2.params.length ∧
      s1.params.length ≠ s2.params.length - numDefaults s2 ∧
      s1.params.length - numDefaults s1 ≠ s2.params.length ∧
      s1.params.length - numDefaults s1 ≠ s2.params.length - numDefaults s2) := by
    rw [← arity_no_overlap_iff]
    simp [h]
  have hd1 : numDefaults s1 ≤ s1.params.length := List.length_filter_le _ _
  have hd2 : numDefaults s2 ≤ s2.params.length := List.length_filter_le _ _
  unfold spec_rangesIntersect specMaxCount specMinCount
  cases hv1 : hasVariadic s1 <;> cases hv2 : hasVariadic s2 <;>
    simp only [Bool.false_eq_true, if_neg, if_pos, ite_true, ite_false,
      decide_eq_true_eq] <;> omega

/-- Counterexample to C4 as stated: one signature with counts in `[1, 3]`
and one with counts in `[2, 2]` share the satisfiable count `2`, yet the
arity step disqualifies the pair (all four endpoint equalities fail). -/
theorem arity_gate_counterexample :
    arity_no_overlap sigDefaults3 sigPlain2 = true ∧
    spec_rangesIntersect sigDefaults3 sigPlain2 = true ∧
    _overlap_signature sigDefaults3 sigPlain2 = false := by
  decide

/-- Concrete check of the amended C4: two equal-length signatures pass the
arity gate, and their satisfiable ranges indeed intersect. -/
theorem arity_gate_characterization_witness :
    arity_no_overlap sigPlain2 sigPlain2 = false ∧
    spec_rangesIntersect sigPlain2 sigPlain2 = true :=
  ⟨by decide, (arity_gate_characterization sigPlain2 sigPlain2).2 (by decide)⟩

/-- C5 (amended): an error raised by the winning candidate's body
propagates unmodified through the free dispatcher and through the bound
dispatcher when a local candidate wins; an error from the ancestor
fallback also propagates unmodified unless it is a `TypeError`, which the
`except TypeError` handler around the ancestor call converts into
`NoMatchingOverloadException`. -/
theorem winner_error_propagation :
    (∀ (cands : List Cand) (args : List Val) (kwargs : List (String × Val))
        (j : Nat) (cj : Cand) (e : Err),
      bestMatchIdx (cands.map Cand.sig) args kwargs = some j →
      cands.get? j = some cj →
      cj.body args kwargs = Except.error e →
      FunctionOverloadDispatcher.call cands args kwargs = Except.error e) ∧
    (∀ (d : BoundDispatcher) (args : List Val) (kwargs : List (String × Val))
        (j : Nat) (cj : Cand) (e : Err),
      bestMatchIdx (d.cands.map Cand.sig) (d.instVal :: args) kwargs = some j →
      d.cands.get? j = some cj →
      cj.body (d.instVal :: args) kwargs = Except.error e →
      d.call args kwargs = Except.error e) ∧
    (∀ (d : BoundDispatcher) (args : List Val) (kwargs : List (String × Val))
        (sc : List Val → List (String × Val) → Except Err Val) (e : Err),
      bestMatchIdx (d.cands.map Cand.sig) (d.instVal :: args) kwargs = none →
      d.superCall = some sc →
      sc args kwargs = Except.error e →
      e ≠ Err.typeErr →
      d.call args kwargs = Except.error e) := by
  refine ⟨?_, ?_, ?_⟩
  · intro cands args kwargs j cj e hbest hget hbody
    have hget2 : cands[j]? = some cj := by
      rw [← List.get?_eq_getElem?]
      exact hget
    simp [FunctionOverloadDispatcher.call, hbest, hget2, hbody]
  · intro d args kwargs j cj e hbest hget hbody
    have hget2 : d.cands[j]? = some cj := by
      rw [← List.get?_eq_getElem?]
      exact hget
    simp [BoundDispatcher.call, hbest, hget2, hbody]
  · intro d args kwargs sc e hbest hsup hsc hne
    cases e with
    | noMatchingOverload => simp [BoundDispatcher.call, hbest, hsup, hsc]
    | typeErr => exact absurd rfl hne
    | userErr n => simp [BoundDispatcher.call, hbest, hsup, hsc]

/-- Counterexample to C5 as stated: with no local candidate and an
ancestor whose body raises `TypeError`, the bound dispatcher returns
`NoMatchingOverloadException` — the ancestor's body error does not
propagate unmodified. -/
theorem ancestor_body_type_error_swallowed :
    superTypeError [] [] = Except.error Err.typeErr ∧
    BoundDispatcher.call dispAncestorRaises [] [] =
      Except.error Err.noMatchingOverload ∧
    (Except.error Err.noMatchingOverload : Except Err Val) ≠
      (Except.error Err.typeErr : Except Err Val) :=
  ⟨rfl, rfl, fun h => by injection h with h; cases h⟩

/-- Concrete check of the amended C5: a winning candidate whose body raises
a user exception makes the free dispatcher return that very exception. -/
theorem winner_error_propagation_witness :
    candRaises.body [vInt] [] = Except.error (Err.userErr 3) ∧
    FunctionOverloadDispatcher.call [candRaises] [vInt] [] =
      Except.error (Err.userErr 3) :=
  ⟨rfl, winner_error_propagation.1 [candRaises] [vInt] [] 0 candRaises
    (Err.userErr 3) (by decide) rfl rfl⟩

/-- Helper: replacing the value of a present key in place makes the lookup
return the new value. -/
theorem odGet_replace (k : String) (v : StoredVal) :
    ∀ d : List (String × StoredVal), (d.map Prod.fst).contains k = true →
      odGet (d.map (fun kv => if kv.1 == k then (kv.1, v) else kv)) k = some v := by
  intro d
  induction d with
  | nil =>
    intro hc
    simp at hc
  | cons hd rest ih =>
    intro hc
    cases hk : (hd.1 == k) with
    | true =>
      simp [odGet, List.find?, hk]
    | false =>
      have hne : hd.1 ≠ k := beq_eq_false_iff_ne.mp hk
      have hc2 : (rest.map Prod.fst).contains k = true := by
        rw [List.map_cons, List.contains_cons] at hc
        have hke : (k == hd.1) = false := beq_eq_false_iff_ne.mpr (Ne.symm hne)
        rw [hke] at hc
        simpa using hc
      have hfind : List.find? (fun kv => kv.1 == k)
          (hd :: rest.map (fun kv => if kv.1 == k then (kv.1, v) else kv)) =
          List.find? (fun kv => kv.1 == k)
            (rest.map (fun kv => if kv.1 == k then (kv.1, v) else kv)) := by
        apply List.find?_cons_of_neg
        simp [hk]
      rw [List.map_cons, hk]
      simp only [Bool.false_eq_true, if_false]
      unfold odGet
      rw [hfind]
      exact ih hc2

/-- Helper: appending a fresh entry for an absent key makes the lookup
return the new value. -/
theorem odGet_append_single (k : String) (v : StoredVal) :
    ∀ d : List (String × StoredVal), (d.map Prod.fst).contains k = false →
      odGet (d ++ [(k, v)]) k = some v := by
  intro d
  induction d with
  | nil =>
    intro _
    simp [odGet, List.find?]
  | cons hd rest ih =>
    intro hc
    rw [List.map_cons, List.contains_cons] at hc
    have hparts := Bool.or_eq_false_iff.mp hc
    have hk : (hd.1 == k) = false :=
      beq_eq_false_iff_ne.mpr (Ne.symm (beq_eq_false_iff_ne.mp hparts.1))
    have hfind : List.find? (fun kv => kv.1 == k) ((hd :: rest) ++ [(k, v)]) =
        List.find? (fun kv => kv.1 == k) (rest ++ [(k, v)]) := by
      apply List.find?_cons_of_neg
      simp [hk]
    unfold odGet
    rw [List.cons_append] at hfind ⊢
    rw [hfind]
    exact ih hparts.2

/-- Helper: after `super().__setitem__(key, v)` the dict maps `key` to
`v`, whether or not the key was present before. -/
theorem odGet_odSetRaw (d : List (String × StoredVal)) (k : String) (v : StoredVal) :
    odGet (odSetRaw d k v) k = some v := by
  unfold odSetRaw
  cases hc : (d.map Prod.fst).contains k with
  | true =>
    rw [if_pos rfl]
    exact odGet_replace k v d hc
  | false =>
    rw [if_neg Bool.false_ne_true]
    exact odGet_append_single k v d hc

/-- C6 (amended): assigning a non-callable value behaves as ordinary
dictionary storage under every name — including one already holding a
registry, which is silently overwritten: afterwards the name holds exactly
the assigned value. -/
theorem setitem_noncallable_plain_storage (d : List (String × StoredVal))
    (k : String) (x : Val) :
    OverloadDict.setItem d k (AssignedVal.nonCallable x) =
      Except.ok (odSetRaw d k (StoredVal.plain x), []) ∧
    odGet (odSetRaw d k (StoredVal.plain x)) k = some (StoredVal.plain x) :=
  ⟨rfl, odGet_odSetRaw d k (StoredVal.plain x)⟩

/-- Counterexample to C6 as stated: assigning a non-callable to the name
`f`, which already holds a registry, succeeds as ordinary storage instead
of raising. -/
theorem setitem_noncallable_over_registry_not_error :
    OverloadDict.setItem regDict "f" (AssignedVal.nonCallable vStr) =
      Except.ok (odSetRaw regDict "f" (StoredVal.plain vStr), []) :=
  rfl

/-- C7: when no local candidate binds with a non-negative score, the bound
dispatcher invokes the ancestor implementation with the original
arguments when one exists — converting a raised `TypeError` into
`NoMatchingOverloadException` and forwarding any other outcome — and
raises `NoMatchingOverloadException` directly when no ancestor exists. -/
theorem bound_fallback (d : BoundDispatcher) (args : List Val)
    (kwargs : List (String × Val))
    (hnone : bestMatchIdx (d.cands.map Cand.sig) (d.instVal :: args) kwargs = none) :
    (d.superCall = none →
      d.call args kwargs = Except.error Err.noMatchingOverload) ∧
    (∀ sc, d.superCall = some sc →
      ((sc args kwargs = Except.error Err.typeErr →
          d.call args kwargs = Except.error Err.noMatchingOverload) ∧
        (∀ r, sc args kwargs = r → r ≠ Except.error Err.typeErr →
          d.call args kwargs = r))) := by
  constructor
  · intro hsup
    simp [BoundDispatcher.call, hnone, hsup]
  · intro sc hsup
    constructor
    · intro hsc
      simp [BoundDispatcher.call, hnone, hsup, hsc]
    · intro r hsc hne
      cases r with
      | ok v => simp [BoundDispatcher.call, hnone, hsup, hsc]
      | error e =>
        cases e with
        | noMatchingOverload => simp [BoundDispatcher.call, hnone, hsup, hsc]
        | typeErr => exact absurd rfl hne
        | userErr n => simp [BoundDispatcher.call, hnone, hsup, hsc]

/-- Concrete check of C7: the local method `m(self, x: int)` rejects the
call `m("a")`, and the ancestor implementation is invoked, its normal
result returned. -/
theorem bound_fallback_witness :
    bestMatchIdx (dispFallback.cands.map Cand.sig)
      (dispFallback.instVal :: [vStr]) [] = none ∧
    BoundDispatcher.call dispFallback [vStr] [] = Except.ok vFloat := by
  have h := bound_fallback dispFallback [vStr] [] (by decide)
  exact ⟨by decide, (h.2 superOk rfl).2 (Except.ok vFloat) rfl
    (fun hcontra => Except.noConfusion hcontra)⟩

/-- Helper for C8: folding a registration sequence appends the candidates
in order. -/
theorem registerAll_overloads (cs : List Cand) :
    ∀ item : OverloadItem,
      (registerAll item cs).overloads = item.overloads ++ cs ∧
      (registerAll item cs).signatures = item.signatures ++ cs.map Cand.sig := by
  induction cs with
  | nil =>
    intro item
    simp [registerAll]
  | cons c cs ih =>
    intro item
    have hstep : registerAll item (c :: cs) =
        registerAll (OverloadItem.append item c).1 cs := rfl
    rw [hstep]
    obtain ⟨h1, h2⟩ := ih (OverloadItem.append item c).1
    constructor
    · rw [h1]
      simp [OverloadItem.append]
    · rw [h2]
      simp [OverloadItem.append]

/-- C8: `append` runs the conflict detector against every registered
signature but appends the candidate unconditionally, so after any sequence
of registrations the registry lists the candidates in registration order;
a conflict only yields warnings, never an error. -/
theorem registration_appends_regardless (item : OverloadItem) (c : Cand)
    (cs : List Cand) :
    (OverloadItem.append item c).1.overloads = item.overloads ++ [c] ∧
    (OverloadItem.append item c).1.signatures = item.signatures ++ [c.sig] ∧
    (registerAll item cs).overloads = item.overloads ++ cs ∧
    (registerAll item cs).signatures = item.signatures ++ cs.map Cand.sig :=
  ⟨rfl, rfl, (registerAll_overloads cs item).1, (registerAll_overloads cs item).2⟩

/-- C10: when the documentation lookup resolves a winner, `help` returns
`__doc__ or ""` — in particular the empty string, not a missing value,
when the winner has no docstring. -/
theorem help_returns_string (item : OverloadItem) (args : List Val)
    (kwargs : List (String × Val)) (i : Nat) (c : Cand)
    (hb : bestMatchIdx item.signatures args kwargs = some i)
    (hc : item.overloads.get? i = some c) :
    OverloadItem.help item args kwargs = Except.ok (pyOrEmpty c.doc) ∧
    (c.doc = none → OverloadItem.help item args kwargs = Except.ok "") := by
  have hc2 : item.overloads[i]? = some c := by
    rw [← List.get?_eq_getElem?]
    exact hc
  constructor
  · simp [OverloadItem.help, hb, hc2]
  · intro hdoc
    simp [OverloadItem.help, hb, hc2, hdoc, pyOrEmpty]

/-- Concrete check of C10: the registry holding only the undocumented
candidate `f(x)` answers a sample lookup with the empty string. -/
theorem help_returns_string_witness :
    itemNoDoc.help [vInt] [] = Except.ok "" :=
  (help_returns_string itemNoDoc [vInt] [] 0 candXAny (by decide) rfl).2 rfl

/-- Helper: sharing a member is symmetric in the two member lists. -/
theorem any_mem_comm (a b : List Ty) :
    a.any (fun t => decide (t ∈ b)) = b.any (fun t => decide (t ∈ a)) := by
  rw [Bool.eq_iff_iff]
  simp only [List.any_eq_true, decide_eq_true_eq]
  exact ⟨fun ⟨t, h1, h2⟩ => ⟨t, h2, h1⟩, fun ⟨t, h1, h2⟩ => ⟨t, h2, h1⟩⟩

/-- Helper: the sort-by-length swap does not change whether the two member
lists share an element. -/
theorem swap_any_mem (a b : List Ty) :
    (if b.length < a.length then b.any (fun t => decide (t ∈ a))
     else a.any (fun t => decide (t ∈ b))) =
      a.any (fun t => decide (t ∈ b)) := by
  split
  · exact any_mem_comm b a
  · rfl

/-- Helper: the per-shared-name overlap check is symmetric. -/
theorem params_overlap_comm (h1 h2 : Hint) :
    params_overlap h1 h2 = params_overlap h2 h1 := by
  unfold params_overlap
  rw [Bool.or_comm (wildcardHint h1), Bool.or_comm (isUnion h1)]
  cases hw : (wildcardHint h2 || wildcardHint h1) with
  | true => simp [hw]
  | false =>
    simp only [hw, Bool.false_eq_true, if_false]
    cases hu : (isUnion h2 || isUnion h1) with
    | true =>
      simp only [hu, if_true]
      rw [swap_any_mem (explodeUnion h1) (explodeUnion h2),
        swap_any_mem (explodeUnion h2) (explodeUnion h1)]
      exact any_mem_comm _ _
    | false =>
      simp only [hu, Bool.false_eq_true, if_false]
      simp [eq_comm]

/-- Helper: the arity guard is symmetric. -/
theorem arity_no_overlap_comm (s1 s2 : Sig) :
    arity_no_overlap s1 s2 = arity_no_overlap s2 s1 := by
  rw [Bool.eq_iff_iff, arity_no_overlap_iff, arity_no_overlap_iff]
  constructor
  · intro h
    exact ⟨h.1.symm, h.2.2.1.symm, h.2.1.symm, h.2.2.2.symm⟩
  · intro h
    exact ⟨h.1.symm, h.2.2.1.symm, h.2.1.symm, h.2.2.2.symm⟩

/-- Helper: under distinct parameter names, the name lookup finds exactly
the member with that name. -/
theorem find?_name_eq_some (l : List Param) (n : String) (p : Param)
    (hnd : (l.map Param.name).Nodup) (hp : p ∈ l) (hn : p.name = n) :
    l.find? (fun q => q.name == n) = some p := by
  induction l with
  | nil => cases hp
  | cons a l ih =>
    rw [List.map_cons, List.nodup_cons] at hnd
    rcases List.mem_cons.mp hp with heq | hmem
    · subst heq
      simp [List.find?, hn]
    · have hne : (a.name == n) = false := by
        apply beq_eq_false_iff_ne.mpr
        intro he
        apply hnd.1
        rw [he, ← hn]
        exact List.mem_map_of_mem Param.name hmem
      simp only [List.find?, hne]
      exact ih hnd.2 hmem

/-- Helper: a successful lookup returns a member carrying the looked-up
name. -/
theorem lookupParam_mem (s : Sig) (n : String) (p : Param)
    (h : lookupParam s n = some p) :
    p ∈ s.params ∧ p.name = n := by
  unfold lookupParam at h
  refine ⟨List.mem_of_find?_eq_some h, ?_⟩
  have := List.find?_some h
  simpa using this

/-- Helper: under distinct names in `s2`, the parameter loop of the
detector holds exactly when every shared-name pair passes the
per-parameter check. -/
theorem overlapLoop_iff (s1 s2 : Sig)
    (h2 : (s2.params.map Param.name).Nodup) :
    overlapLoop s1 s2 = true ↔
      ∀ p ∈ s1.params, ∀ q ∈ s2.params, q.name = p.name →
        params_overlap (eraseOrigin p.hint) (eraseOrigin q.hint) = true := by
  unfold overlapLoop
  rw [List.all_eq_true]
  constructor
  · intro h p hp q hq hname
    have hl : lookupParam s2 p.name = some q :=
      find?_name_eq_some s2.params p.name q h2 hq hname
    simpa [hl] using h p hp
  · intro h p hp
    cases hl : lookupParam s2 p.name with
    | none => simp [hl]
    | some q =>
      obtain ⟨hqmem, hqname⟩ := lookupParam_mem s2 p.name q hl
      simpa [hl] using h p hp q hqmem hqname

/-- C9: for signatures with distinct parameter names (as Python
guarantees), the conflict detector's verdict is symmetric. -/
theorem conflict_overlap_symmetric (s1 s2 : Sig)
    (h1 : (s1.params.map Param.name).Nodup)
    (h2 : (s2.params.map Param.name).Nodup) :
    _overlap_signature s1 s2 = _overlap_signature s2 s1 := by
  unfold _overlap_signature
  rw [arity_no_overlap_comm s1 s2]
  by_cases hg : arity_no_overlap s2 s1 = true
  · simp [hg]
  · rw [Bool.not_eq_true] at hg
    have hloop : overlapLoop s1 s2 = overlapLoop s2 s1 := by
      rw [Bool.eq_iff_iff, overlapLoop_iff s1 s2 h2, overlapLoop_iff s2 s1 h1]
      constructor
      · intro h p hp q hq hname
        rw [params_overlap_comm]
        exact h q hq p hp hname.symm
      · intro h p hp q hq hname
        rw [params_overlap_comm]
        exact h q hq p hp hname.symm
    simp [hg, hloop]

/-- Concrete check of C9: the detector answers the same for
`(x: int)` vs `(x)` in either order. -/
theorem conflict_overlap_symmetric_witness :
    (sigXInt.params.map Param.name).Nodup ∧
    (sigXAny.params.map Param.name).Nodup ∧
    _overlap_signature sigXInt sigXAny = _overlap_signature sigXAny sigXInt :=
  ⟨by decide, by decide,
    conflict_overlap_symmetric sigXInt sigXAny (by decide) (by decide)⟩

end DynamicOverload
